import Mathlib

/-!
Shallow embedding of the grade-calculation engine of the Whats-My-Grade
repository (`src/utils/gradeCalculations.tsx`), together with theorems
settling the claims about it.

Modelling conventions:
* JavaScript numbers are modelled as rationals (`ℚ`); fields that may be
  `null`/`undefined`/non-numeric at runtime (the code guards them with
  `typeof x === "number"` checks) are modelled as `Option ℚ`, with `none`
  standing for any non-numeric value.
* `x || 0` on a `number | null` value is `Option.getD 0`.
* The JavaScript falsy test `!assignment.groupId` is true for `null`,
  `undefined` and the empty string, so it is modelled by `groupIdMissing`.
* `Array.prototype.sort` is stable (ES2019), so the cutoff sort is modelled
  by Mathlib's stable `List.insertionSort`.
* Identifier fields that the calculation never reads (`courseId`, `userId`,
  `name`, `createdAt`, `deadline`) are omitted from the structures.
-/

/-- Assignment record (from `src/types.ts`), restricted to the fields the
grade calculation reads. -/
structure Assignment where
  id : String
  score : Option ℚ
  totalScore : Option ℚ
  weight : Option ℚ
  isDropped : Bool
  isExtraCredit : Bool
  groupId : Option String
  relativeWeightInGroup : Option ℚ
deriving DecidableEq, Repr

/-- Assignment-group record (from `src/types.ts`); `weight` is guarded by a
`typeof` check in the code, hence `Option ℚ`. -/
structure AssignmentGroup where
  id : String
  weight : Option ℚ
deriving DecidableEq, Repr

/-- Grade-cutoff record (from `src/types.ts`); both fields are guarded by
`typeof` checks in `getLetterGrade`, hence `Option`. -/
structure GradeCutoff where
  id : String
  grade : Option String
  minPercentage : Option ℚ
deriving DecidableEq, Repr

/-- Source `safePercentage`: `score / total` when both are numbers and
`total ≠ 0`, otherwise `null`. -/
def safePercentage (score total : Option ℚ) : Option ℚ :=
  match score, total with
  | some s, some t => if t = 0 then none else some (s / t)
  | _, _ => none

/-- Source `isValidWeight`: a positive number.  At its call site the argument
has already been defaulted to a number, so the `typeof` test is just `0 < w`. -/
def isValidWeight (w : ℚ) : Bool :=
  decide (0 < w)

/-- JavaScript falsy test `!assignment.groupId`: true for `null`/`undefined`
and for the empty string. -/
def groupIdMissing (g : Option String) : Bool :=
  match g with
  | none => true
  | some s => decide (s = "")

/-- Source sibling collection inside `calculateEffectiveWeight`:
assignments of `allAssignments` with the given `groupId` and not dropped. -/
def groupAssignmentsOf (gid : String) (allAssignments : List Assignment) : List Assignment :=
  allAssignments.filter (fun a => decide (a.groupId = some gid) && !a.isDropped)

/-- Source `groupAssignments.some(a => typeof a.relativeWeightInGroup === "number"
&& a.relativeWeightInGroup > 0)`: the group uses manual relative weighting. -/
def groupUsesManualWeight (l : List Assignment) : Bool :=
  l.any (fun a => decide (0 < a.relativeWeightInGroup.getD 0))

/-- Source accumulation of `totalRelativeWeightInGroup`: sum of the positive
relative weights (non-numbers count as 0). -/
def totalRelativeWeightInGroup (l : List Assignment) : ℚ :=
  l.foldl
    (fun acc a =>
      let relWeight := a.relativeWeightInGroup.getD 0
      if 0 < relWeight then acc + relWeight else acc)
    0

/-- Source `calculateEffectiveWeight`. -/
def calculateEffectiveWeight (assignment : Assignment) (allAssignments : List Assignment)
    (groups : List AssignmentGroup) : Option ℚ :=
  if assignment.isDropped then some 0
  else if groupIdMissing assignment.groupId then assignment.weight
  else
    match groups.find? (fun g => decide (assignment.groupId = some g.id)) with
    | none => some 0
    | some group =>
      match group.weight with
      | none => some 0
      | some gw =>
        if gw ≤ 0 then some 0
        else
          let groupAssignments := groupAssignmentsOf group.id allAssignments
          if groupAssignments.length = 0 then some 0
          else if groupUsesManualWeight groupAssignments then
            let totalRel := totalRelativeWeightInGroup groupAssignments
            if totalRel = 0 then some 0
            else
              let assignmentRelativeWeight := assignment.relativeWeightInGroup.getD 0
              some (gw * (assignmentRelativeWeight / totalRel))
          else some (gw / (groupAssignments.length : ℚ))

/-- Source `calculateAssignmentContribution`: the pair
`(pointsObtained, pointsTotal)` an assignment adds to the accumulators. -/
def calculateAssignmentContribution (assignment : Assignment) (weight : ℚ) : ℚ × ℚ :=
  match safePercentage assignment.score assignment.totalScore with
  | none => (0, 0)
  | some percentage =>
    if isValidWeight weight then
      (percentage * weight, if assignment.isExtraCredit then 0 else weight)
    else (0, 0)

/-- Loop body of `calculateOverallGrade`: contribution of one assignment,
with its weight computed by `calculateEffectiveWeight(...) || 0`. -/
def contributionPair (allAssignments : List Assignment) (groups : List AssignmentGroup)
    (assignment : Assignment) : ℚ × ℚ :=
  calculateAssignmentContribution assignment
    ((calculateEffectiveWeight assignment allAssignments groups).getD 0)

/-- Source `calculateOverallGrade` (the current, per-assignment aggregator). -/
def calculateOverallGrade (allAssignments : List Assignment)
    (groups : List AssignmentGroup) : Option ℚ :=
  let assignments := allAssignments.filter (fun a => !a.isDropped)
  let totals := assignments.foldl
    (fun acc a =>
      let c := contributionPair allAssignments groups a
      (acc.1 + c.1, acc.2 + c.2))
    ((0 : ℚ), (0 : ℚ))
  if totals.2 = 0 then none
  else some (max 0 (totals.1 / totals.2 * 100))

/-- Source cutoff filter: entries with a numeric `minPercentage` and a string
`grade`. -/
def validCutoff (c : GradeCutoff) : Bool :=
  c.minPercentage.isSome && c.grade.isSome

/-- Descending comparison on `minPercentage`, the order produced by the source
comparator `(a, b) => b.minPercentage - a.minPercentage`. -/
def cutoffGE (a b : GradeCutoff) : Prop :=
  b.minPercentage.getD 0 ≤ a.minPercentage.getD 0

instance : DecidableRel cutoffGE := fun a b =>
  inferInstanceAs (Decidable (b.minPercentage.getD 0 ≤ a.minPercentage.getD 0))

instance : IsTotal GradeCutoff cutoffGE :=
  ⟨fun a b => le_total (b.minPercentage.getD 0) (a.minPercentage.getD 0)⟩

instance : IsTrans GradeCutoff cutoffGE :=
  ⟨fun _ _ _ hab hbc => le_trans hbc hab⟩

/-- Source `sortedCutoffs`: filter the invalid entries, then sort descending
by `minPercentage` with a stable sort. -/
def sortedCutoffs (cutoffs : List GradeCutoff) : List GradeCutoff :=
  List.insertionSort cutoffGE (cutoffs.filter validCutoff)

/-- Body of `getLetterGrade` after the `null` check: scan the sorted cutoffs
for the first one met, else fall back to `find(c => c.minPercentage <= 0)?.grade
|| "F"` (note the `||`: an empty-string grade also falls back to `"F"`). -/
def letterFromSorted (p : ℚ) (sorted : List GradeCutoff) : String :=
  match sorted.find? (fun c => decide (c.minPercentage.getD 0 ≤ p)) with
  | some c => c.grade.getD ""
  | none =>
    match sorted.find? (fun c => decide (c.minPercentage.getD 0 ≤ 0)) with
    | some c => if c.grade.getD "" = "" then "F" else c.grade.getD ""
    | none => "F"

/-- Source `getLetterGrade`. -/
def getLetterGrade (percentage : Option ℚ) (cutoffs : List GradeCutoff) : String :=
  match percentage with
  | none => "-"
  | some p => letterFromSorted p (sortedCutoffs cutoffs)

/-- Selection described by the getLetterGrade claim: among the cutoffs whose
`minPercentage` is at most `p`, the one with the largest `minPercentage`,
ties resolved in favour of the earliest in the original array order. -/
def bestCutoff (p : ℚ) : List GradeCutoff → Option GradeCutoff
  | [] => none
  | c :: rest =>
    if c.minPercentage.getD 0 ≤ p then
      match bestCutoff p rest with
      | some b =>
        if c.minPercentage.getD 0 < b.minPercentage.getD 0 then some b else some c
      | none => some c
    else bestCutoff p rest
/-- Legacy manual-weighting branch of the second `calculateOverallGrade` in the
source file: positive relative weights of non-extra-credit members are summed,
extra-credit members add their normalized share times the group weight straight
to the score, and the group counts toward the total weight only when the
members' weighted-score sum is nonzero (a JavaScript truthiness test). -/
def legacyManualGroup (groupAssignments : List Assignment) (groupWeight : ℚ)
    (acc : ℚ × ℚ) : ℚ × ℚ :=
  let groupManualWeightTotal := groupAssignments.foldl
    (fun (t : ℚ) a =>
      let relWeight := a.relativeWeightInGroup.getD 0
      if 0 < relWeight ∧ a.isExtraCredit = false then t + relWeight else t)
    (0 : ℚ)
  if 0 < groupManualWeightTotal then
    let step := groupAssignments.foldl
      (fun (st : ℚ × ℚ) a =>
        match safePercentage a.score a.totalScore with
        | none => st
        | some percentage =>
          let relativeWeight : ℚ := a.relativeWeightInGroup.getD 0
          if 0 < relativeWeight then
            if a.isExtraCredit then
              (st.1 + percentage * (relativeWeight / groupManualWeightTotal) * groupWeight,
               st.2)
            else
              (st.1, st.2 + percentage * (relativeWeight / groupManualWeightTotal))
          else st)
      ((0 : ℚ), (0 : ℚ))
    if step.2 ≠ 0 then (acc.1 + step.1 + step.2 * groupWeight, acc.2 + groupWeight)
    else (acc.1 + step.1, acc.2)
  else acc
/-- Legacy equal-weighting branch: the group score is points-based
(`Σscore / ΣtotalScore` over graded non-extra-credit members), and extra-credit
members add `percentage * relativeWeightInGroup` straight to the score. -/
def legacyEqualGroup (groupAssignments : List Assignment) (groupWeight : ℚ)
    (acc : ℚ × ℚ) : ℚ × ℚ :=
  let sums := groupAssignments.foldl
    (fun (s : ℚ × ℚ) a =>
      match a.score, a.totalScore with
      | some sc, some tot =>
        if a.isExtraCredit = false ∧ 0 < tot then (s.1 + sc, s.2 + tot) else s
      | _, _ => s)
    ((0 : ℚ), (0 : ℚ))
  let withGroup :=
    if 0 < sums.2 then (acc.1 + sums.1 / sums.2 * groupWeight, acc.2 + groupWeight)
    else acc
  let ecBonus := groupAssignments.foldl
    (fun (b : ℚ) a =>
      match a.score, a.totalScore with
      | some sc, some tot =>
        if a.isExtraCredit = true ∧ 0 < tot then
          b + sc / tot * a.relativeWeightInGroup.getD 0
        else b
      | _, _ => b)
    (0 : ℚ)
  (withGroup.1 + ecBonus, withGroup.2)
/-- Legacy per-group step: skip empty or non-positively-weighted groups,
otherwise dispatch on the weighting policy. -/
def legacyGroupStep (assignments : List Assignment) (acc : ℚ × ℚ)
    (group : AssignmentGroup) : ℚ × ℚ :=
  let groupAssignments := assignments.filter (fun a => decide (a.groupId = some group.id))
  let groupWeight : ℚ := match group.weight with
    | some w => if 0 < w then w else 0
    | none => 0
  if groupAssignments.length = 0 ∨ groupWeight ≤ 0 then acc
  else if groupUsesManualWeight groupAssignments then
    legacyManualGroup groupAssignments groupWeight acc
  else legacyEqualGroup groupAssignments groupWeight acc
/-- Per-assignment contribution of the legacy ungrouped loop (its loop body in
closed form). -/
def legacyUngroupedDelta (a : Assignment) : ℚ × ℚ :=
  match safePercentage a.score a.totalScore with
  | none => (0, 0)
  | some percentage =>
    let weight : ℚ := match a.weight with
      | some w => if 0 < w then w else 0
      | none => 0
    if 0 < weight then
      (percentage * weight, if a.isExtraCredit then 0 else weight)
    else (0, 0)
/-- The legacy aggregator: the second `calculateOverallGrade` implementation
appearing later in the same source file. -/
def calculateOverallGradeLegacy (allAssignments : List Assignment)
    (groups : List AssignmentGroup) : Option ℚ :=
  let assignments := allAssignments.filter (fun a => !a.isDropped)
  let ungrouped := assignments.filter (fun a => groupIdMissing a.groupId)
  let base := ungrouped.foldl
    (fun (acc : ℚ × ℚ) a =>
      match safePercentage a.score a.totalScore with
      | none => acc
      | some percentage =>
        let weight : ℚ := match a.weight with
          | some w => if 0 < w then w else 0
          | none => 0
        if 0 < weight then
          (acc.1 + percentage * weight,
           if a.isExtraCredit then acc.2 else acc.2 + weight)
        else acc)
    ((0 : ℚ), (0 : ℚ))
  let totals := groups.foldl (legacyGroupStep assignments) base
  if totals.2 = 0 then none
  else some (max 0 (totals.1 / totals.2 * 100))

/-! ### Generic accumulation lemmas -/

/-- A left fold that adds a pair per element computes the two component sums. -/
theorem foldl_pair_sum {α : Type} (f : α → ℚ × ℚ) :
    ∀ (l : List α) (init : ℚ × ℚ),
      l.foldl (fun acc x => (acc.1 + (f x).1, acc.2 + (f x).2)) init
        = (init.1 + (l.map (fun x => (f x).1)).sum, init.2 + (l.map (fun x => (f x).2)).sum)
  | [], init => by simp
  | a :: t, init => by
    rw [List.foldl_cons, foldl_pair_sum f t]
    simp [add_assoc]

/-- The accumulators of `calculateOverallGrade` in closed form. -/
theorem calculateOverallGrade_eq (allAssignments : List Assignment)
    (groups : List AssignmentGroup) :
    calculateOverallGrade allAssignments groups =
      (if ((allAssignments.filter (fun a => !a.isDropped)).map
            (fun a => (contributionPair allAssignments groups a).2)).sum = 0
       then none
       else some (max 0
          ((((allAssignments.filter (fun a => !a.isDropped)).map
              (fun a => (contributionPair allAssignments groups a).1)).sum /
            ((allAssignments.filter (fun a => !a.isDropped)).map
              (fun a => (contributionPair allAssignments groups a).2)).sum) * 100))) := by
  unfold calculateOverallGrade
  dsimp only
  rw [foldl_pair_sum (contributionPair allAssignments groups)]
  simp

/-- Both components of a contribution vanish when the percentage is undefined
or the weight is not strictly positive. -/
theorem contribution_zero_of_invalid (a : Assignment) (w : ℚ)
    (h : safePercentage a.score a.totalScore = none ∨ w ≤ 0) :
    calculateAssignmentContribution a w = (0, 0) := by
  unfold calculateAssignmentContribution
  cases hp : safePercentage a.score a.totalScore with
  | none => rfl
  | some p =>
    rcases h with h | h
    · rw [hp] at h; cases h
    · simp [isValidWeight, not_lt.mpr h]

/-- The denominator component of a contribution is never negative. -/
theorem contribution_snd_nonneg (a : Assignment) (w : ℚ) :
    0 ≤ (calculateAssignmentContribution a w).2 := by
  unfold calculateAssignmentContribution
  cases hp : safePercentage a.score a.totalScore with
  | none => simp
  | some p =>
    by_cases hw : isValidWeight w
    · have hw' : 0 < w := of_decide_eq_true hw
      simp only [hw, if_true]
      by_cases he : a.isExtraCredit <;> simp [he, le_of_lt hw']
    · simp [hw]

/-- A non-`null` overall grade is never negative (the `max 0` floor). -/
theorem overall_nonneg (allAssignments : List Assignment) (groups : List AssignmentGroup)
    (q : ℚ) (h : calculateOverallGrade allAssignments groups = some q) : 0 ≤ q := by
  rw [calculateOverallGrade_eq] at h
  split at h
  · cases h
  · cases h
    exact le_max_left _ _

/-- Removing an element on which the predicate fails does not change a filter. -/
theorem filter_middle {α : Type} (p : α → Bool) (a : α) (h : p a = false)
    (l1 l2 : List α) : (l1 ++ a :: l2).filter p = (l1 ++ l2).filter p := by
  simp [List.filter_append, List.filter_cons, h]

/-- `calculateEffectiveWeight` only reads the assignment list through the
sibling collection. -/
theorem calculateEffectiveWeight_congr (b : Assignment) (L1 L2 : List Assignment)
    (groups : List AssignmentGroup)
    (h : ∀ gid, groupAssignmentsOf gid L1 = groupAssignmentsOf gid L2) :
    calculateEffectiveWeight b L1 groups = calculateEffectiveWeight b L2 groups := by
  unfold calculateEffectiveWeight
  simp only [h]

/-- Dropped assignments are invisible to every sibling collection. -/
theorem groupAssignmentsOf_middle (a : Assignment) (ha : a.isDropped = true)
    (gid : String) (l1 l2 : List Assignment) :
    groupAssignmentsOf gid (l1 ++ a :: l2) = groupAssignmentsOf gid (l1 ++ l2) := by
  unfold groupAssignmentsOf
  exact filter_middle _ a (by simp [ha]) l1 l2

/-- C1: `calculateOverallGrade` returns `null` exactly when the accumulated
total weight is zero; otherwise it returns `max 0 (100 * totalPoints / totalWeight)`,
where over the non-dropped assignments `totalPoints` sums `percentage * effectiveWeight`
and `totalWeight` sums the effective weights of the non-extra-credit ones, an
assignment contributing `(0, 0)` whenever its percentage is undefined or its
effective weight is not strictly positive; every non-`null` result is `≥ 0`. -/
theorem overall_grade_characterization (allAssignments : List Assignment)
    (groups : List AssignmentGroup) :
    (calculateOverallGrade allAssignments groups =
      (if ((allAssignments.filter (fun a => !a.isDropped)).map
            (fun a => (contributionPair allAssignments groups a).2)).sum = 0
       then none
       else some (max 0
          ((((allAssignments.filter (fun a => !a.isDropped)).map
              (fun a => (contributionPair allAssignments groups a).1)).sum /
            ((allAssignments.filter (fun a => !a.isDropped)).map
              (fun a => (contributionPair allAssignments groups a).2)).sum) * 100)))) ∧
    (∀ a w, safePercentage a.score a.totalScore = none ∨ w ≤ 0 →
      calculateAssignmentContribution a w = (0, 0)) ∧
    0 ≤ (calculateOverallGrade allAssignments groups).getD 0 := by
  refine ⟨calculateOverallGrade_eq allAssignments groups, contribution_zero_of_invalid, ?_⟩
  cases h : calculateOverallGrade allAssignments groups with
  | none => simp
  | some q => simpa using overall_nonneg allAssignments groups q h

/-- Witness for `overall_grade_characterization` at concrete inputs. -/
theorem overall_grade_characterization_witness :
    calculateAssignmentContribution
        ⟨"w", some 5, some 10, some 20, false, false, none, none⟩ (-1) = (0, 0) ∧
    calculateOverallGrade [] [] = none := by
  constructor
  · exact (overall_grade_characterization [] []).2.1
      ⟨"w", some 5, some 10, some 20, false, false, none, none⟩ (-1) (Or.inr (by norm_num))
  · exact (overall_grade_characterization [] []).1

/-- C5: a dropped assignment has effective weight 0 and never affects the
overall grade or any other assignment's effective weight: removing it from the
assignment list changes nothing. -/
theorem dropped_assignment_inert (a : Assignment) (ha : a.isDropped = true)
    (l1 l2 : List Assignment) (groups : List AssignmentGroup) :
    (∀ A, calculateEffectiveWeight a A groups = some 0) ∧
    (∀ b, calculateEffectiveWeight b (l1 ++ a :: l2) groups
        = calculateEffectiveWeight b (l1 ++ l2) groups) ∧
    calculateOverallGrade (l1 ++ a :: l2) groups
      = calculateOverallGrade (l1 ++ l2) groups := by
  have heff : ∀ b, calculateEffectiveWeight b (l1 ++ a :: l2) groups
      = calculateEffectiveWeight b (l1 ++ l2) groups := fun b =>
    calculateEffectiveWeight_congr b _ _ groups
      (fun gid => groupAssignmentsOf_middle a ha gid l1 l2)
  refine ⟨?_, heff, ?_⟩
  · intro A
    unfold calculateEffectiveWeight
    simp [ha]
  · have hcp : ∀ b, contributionPair (l1 ++ a :: l2) groups b
        = contributionPair (l1 ++ l2) groups b := by
      intro b
      unfold contributionPair
      rw [heff b]
    rw [calculateOverallGrade_eq, calculateOverallGrade_eq,
      filter_middle _ a (by simp [ha]) l1 l2]
    simp only [hcp]

/-- Witness for `dropped_assignment_inert` at a concrete input. -/
theorem dropped_assignment_inert_witness :
    calculateOverallGrade
      [⟨"k", some 5, some 10, some 50, false, false, none, none⟩,
       ⟨"d", some 1, some 10, some 50, true, false, none, none⟩] [] =
    calculateOverallGrade [⟨"k", some 5, some 10, some 50, false, false, none, none⟩] [] :=
  (dropped_assignment_inert ⟨"d", some 1, some 10, some 50, true, false, none, none⟩ rfl
    [⟨"k", some 5, some 10, some 50, false, false, none, none⟩] [] []).2.2

/-- The denominator component of an extra-credit contribution is 0. -/
theorem contribution_snd_of_extraCredit (a : Assignment) (w : ℚ)
    (h : a.isExtraCredit = true) : (calculateAssignmentContribution a w).2 = 0 := by
  unfold calculateAssignmentContribution
  cases hp : safePercentage a.score a.totalScore with
  | none => rfl
  | some p => by_cases hw : isValidWeight w <;> simp [hw, h]

/-- The numerator component of a contribution is nonnegative when the
percentage is nonnegative (or undefined). -/
theorem contribution_fst_nonneg (a : Assignment) (w : ℚ)
    (hp : 0 ≤ (safePercentage a.score a.totalScore).getD 0) :
    0 ≤ (calculateAssignmentContribution a w).1 := by
  unfold calculateAssignmentContribution
  cases hsp : safePercentage a.score a.totalScore with
  | none => simp
  | some p =>
    rw [hsp] at hp
    simp only [Option.getD_some] at hp
    by_cases hw : isValidWeight w
    · have hw' : 0 < w := of_decide_eq_true hw
      simp [hw, mul_nonneg hp (le_of_lt hw')]
    · simp [hw]

/-- The accumulated denominator is nonnegative. -/
theorem contributions_snd_sum_nonneg (L A : List Assignment)
    (groups : List AssignmentGroup) :
    0 ≤ (L.map (fun a => (contributionPair A groups a).2)).sum := by
  apply List.sum_nonneg
  intro v hv
  obtain ⟨b, _, rfl⟩ := List.mem_map.mp hv
  exact contribution_snd_nonneg b _

/-- Appending an ungrouped assignment changes no sibling collection. -/
theorem groupAssignmentsOf_append_ungrouped (x : Assignment) (hx : x.groupId = none)
    (gid : String) (L : List Assignment) :
    groupAssignmentsOf gid (L ++ [x]) = groupAssignmentsOf gid L := by
  unfold groupAssignmentsOf
  rw [List.filter_append]
  simp [hx]

/-- C2 counterexample: an extra-credit assignment CAN lower the overall grade.
First instance: adding an extra-credit member to an equally weighted group
dilutes its siblings' weights (all scores nonnegative), dropping the grade
from 50 to 100/3.  Second instance: an ungrouped extra-credit assignment with
a negative score lowers the grade from 100 to 90. -/
theorem extra_credit_can_lower_grade :
    (calculateOverallGrade
        [⟨"a1", some 10, some 10, none, false, false, some "g", none⟩,
         ⟨"b", some 0, some 10, some 100, false, false, none, none⟩]
        [⟨"g", some 100⟩] = some 50 ∧
     calculateOverallGrade
        [⟨"a1", some 10, some 10, none, false, false, some "g", none⟩,
         ⟨"b", some 0, some 10, some 100, false, false, none, none⟩,
         ⟨"x", some 0, some 10, none, false, true, some "g", none⟩]
        [⟨"g", some 100⟩] = some (100/3) ∧
     (100 : ℚ)/3 < 50) ∧
    (calculateOverallGrade
        [⟨"c", some 10, some 10, some 100, false, false, none, none⟩] [] = some 100 ∧
     calculateOverallGrade
        [⟨"c", some 10, some 10, some 100, false, false, none, none⟩,
         ⟨"y", some (-10), some 10, some 10, false, true, none, none⟩] [] = some 90 ∧
     (90 : ℚ) < 100) := by
  refine ⟨⟨?_, ?_, by norm_num⟩, ⟨?_, ?_, by norm_num⟩⟩ <;>
    simp [calculateOverallGrade, contributionPair, calculateAssignmentContribution,
      calculateEffectiveWeight, safePercentage, isValidWeight, groupIdMissing,
      groupAssignmentsOf, groupUsesManualWeight, totalRelativeWeightInGroup,
      List.filter_cons, List.find?_cons, List.foldl_cons] <;>
    norm_num

/-- C2 amended: adding an UNGROUPED extra-credit assignment whose percentage is
not negative (undefined counts as 0) never lowers the overall grade: nullity is
preserved and any non-`null` result does not decrease. -/
theorem ungrouped_extra_credit_monotone (A : List Assignment)
    (groups : List AssignmentGroup) (x : Assignment)
    (hec : x.isExtraCredit = true) (hx : x.groupId = none)
    (hp : 0 ≤ (safePercentage x.score x.totalScore).getD 0) :
    (calculateOverallGrade (A ++ [x]) groups = none ↔
      calculateOverallGrade A groups = none) ∧
    ∀ p q, calculateOverallGrade A groups = some p →
      calculateOverallGrade (A ++ [x]) groups = some q → p ≤ q := by
  have hcp : ∀ b, contributionPair (A ++ [x]) groups b = contributionPair A groups b := by
    intro b
    unfold contributionPair
    rw [calculateEffectiveWeight_congr b _ _ groups
      (fun gid => groupAssignmentsOf_append_ungrouped x hx gid A)]
  rw [calculateOverallGrade_eq, calculateOverallGrade_eq]
  simp only [hcp, List.filter_append, List.map_append, List.sum_append]
  cases hd : x.isDropped with
  | true =>
    have hfl : List.filter (fun a => !a.isDropped) [x] = [] := by simp [hd]
    rw [hfl]
    simp only [List.map_nil, List.sum_nil, add_zero]
    exact ⟨by simp, fun p q h1 h2 => le_of_eq (Option.some.inj (h1.symm.trans h2))⟩
  | false =>
    have hfl : List.filter (fun a => !a.isDropped) [x] = [x] := by simp [hd]
    rw [hfl]
    simp only [List.map_cons, List.map_nil, List.sum_cons, List.sum_nil, add_zero]
    have hsnd : (contributionPair A groups x).2 = 0 :=
      contribution_snd_of_extraCredit x _ hec
    rw [hsnd, add_zero]
    constructor
    · constructor <;> intro h <;> split at h <;> simp_all
    · intro p q h1 h2
      have hS2 : ¬ ((A.filter (fun a => !a.isDropped)).map
          (fun a => (contributionPair A groups a).2)).sum = 0 := by
        intro hz
        rw [if_pos hz] at h1
        cases h1
      rw [if_neg hS2] at h1 h2
      have hpos : 0 < ((A.filter (fun a => !a.isDropped)).map
          (fun a => (contributionPair A groups a).2)).sum :=
        lt_of_le_of_ne (contributions_snd_sum_nonneg _ _ _) (Ne.symm hS2)
      have hδ : 0 ≤ (contributionPair A groups x).1 := contribution_fst_nonneg x _ hp
      cases h1
      cases h2
      refine max_le_max le_rfl ?_
      refine mul_le_mul_of_nonneg_right ?_ (by norm_num)
      exact (div_le_div_iff_of_pos_right hpos).mpr (le_add_of_nonneg_right hδ)

/-- Witness for `ungrouped_extra_credit_monotone` at concrete inputs. -/
theorem ungrouped_extra_credit_monotone_witness :
    calculateOverallGrade
      [⟨"a", some 5, some 10, some 100, false, false, none, none⟩] [] = some 50 ∧
    calculateOverallGrade
      ([⟨"a", some 5, some 10, some 100, false, false, none, none⟩] ++
       [⟨"x", some 5, some 10, some 20, false, true, none, none⟩]) [] = some 60 ∧
    (50 : ℚ) ≤ 60 := by
  have h50 : calculateOverallGrade
      [⟨"a", some 5, some 10, some 100, false, false, none, none⟩] [] = some 50 := by
    simp [calculateOverallGrade, contributionPair, calculateAssignmentContribution,
      calculateEffectiveWeight, safePercentage, isValidWeight, groupIdMissing,
      List.filter_cons, List.foldl_cons]
    all_goals norm_num
  have h60 : calculateOverallGrade
      ([⟨"a", some 5, some 10, some 100, false, false, none, none⟩] ++
       [⟨"x", some 5, some 10, some 20, false, true, none, none⟩]) [] = some 60 := by
    simp [calculateOverallGrade, contributionPair, calculateAssignmentContribution,
      calculateEffectiveWeight, safePercentage, isValidWeight, groupIdMissing,
      List.filter_cons, List.foldl_cons]
    all_goals norm_num
  exact ⟨h50, h60,
    (ungrouped_extra_credit_monotone
      [⟨"a", some 5, some 10, some 100, false, false, none, none⟩] []
      ⟨"x", some 5, some 10, some 20, false, true, none, none⟩ rfl rfl
      (by norm_num [safePercentage])).2 50 60 h50 h60⟩

/-- The accumulated `totalRelativeWeightInGroup` in closed form: the sum of the
positive relative weights. -/
theorem totalRel_fold (l : List Assignment) : ∀ init : ℚ,
    l.foldl
      (fun acc a =>
        let relWeight := a.relativeWeightInGroup.getD 0
        if 0 < relWeight then acc + relWeight else acc)
      init
    = init + ((l.filter (fun a => decide (0 < a.relativeWeightInGroup.getD 0))).map
        (fun a => a.relativeWeightInGroup.getD 0)).sum := by
  induction l with
  | nil => intro init; simp
  | cons a t ih =>
    intro init
    rw [List.foldl_cons]
    dsimp only
    by_cases h : 0 < a.relativeWeightInGroup.getD 0
    · simp only [h, if_true, ih, List.filter_cons, decide_eq_true_eq, List.map_cons,
        List.sum_cons]
      ring
    · simp [h, ih, List.filter_cons]

/-- `totalRelativeWeightInGroup` as a filtered sum. -/
theorem totalRel_eq_sum (l : List Assignment) :
    totalRelativeWeightInGroup l
      = ((l.filter (fun a => decide (0 < a.relativeWeightInGroup.getD 0))).map
          (fun a => a.relativeWeightInGroup.getD 0)).sum := by
  unfold totalRelativeWeightInGroup
  rw [totalRel_fold l 0, zero_add]

/-- When some member has a positive relative weight, the accumulated total of
positive relative weights is strictly positive. -/
theorem totalRel_pos (l : List Assignment) (h : groupUsesManualWeight l = true) :
    0 < totalRelativeWeightInGroup l := by
  have hex : ∃ a ∈ l, decide (0 < a.relativeWeightInGroup.getD 0) = true := by
    simpa [groupUsesManualWeight, List.any_eq_true] using h
  obtain ⟨a, ha, hpa⟩ := hex
  have hr : 0 < a.relativeWeightInGroup.getD 0 := of_decide_eq_true hpa
  rw [totalRel_eq_sum]
  have hmem : a.relativeWeightInGroup.getD 0 ∈
      (l.filter (fun a => decide (0 < a.relativeWeightInGroup.getD 0))).map
        (fun a => a.relativeWeightInGroup.getD 0) :=
    List.mem_map_of_mem _ (List.mem_filter.mpr ⟨ha, hpa⟩)
  have hnn : ∀ v ∈ (l.filter (fun a => decide (0 < a.relativeWeightInGroup.getD 0))).map
      (fun a => a.relativeWeightInGroup.getD 0), 0 ≤ v := by
    intro v hv
    obtain ⟨b, hb, rfl⟩ := List.mem_map.mp hv
    exact le_of_lt (of_decide_eq_true (List.mem_filter.mp hb).2)
  exact lt_of_lt_of_le hr (List.single_le_sum hnn _ hmem)

/-- C8: whenever `calculateEffectiveWeight` takes the manual-weighting branch
(`groupUsesManualWeight` holds for the sibling collection), the accumulated
total of positive relative weights is strictly positive, so the
division-by-zero guard returning 0 is unreachable and the division is
performed with a nonzero divisor. -/
theorem manual_branch_total_positive (l : List Assignment)
    (h : groupUsesManualWeight l = true) :
    0 < totalRelativeWeightInGroup l ∧ totalRelativeWeightInGroup l ≠ 0 :=
  ⟨totalRel_pos l h, ne_of_gt (totalRel_pos l h)⟩

/-- Witness for `manual_branch_total_positive` at a concrete input. -/
theorem manual_branch_total_positive_witness :
    0 < totalRelativeWeightInGroup
        [⟨"m", some 5, some 10, none, false, false, some "g", some 2⟩] ∧
    totalRelativeWeightInGroup
        [⟨"m", some 5, some 10, none, false, false, some "g", some 2⟩] ≠ 0 :=
  manual_branch_total_positive _ (by decide)

/-- Evaluation of `calculateEffectiveWeight` for a non-dropped member of an
existing positively weighted group. -/
theorem calc_eff_grouped (a : Assignment) (A : List Assignment)
    (groups : List AssignmentGroup) (gid : String) (g : AssignmentGroup) (G : ℚ)
    (hd : a.isDropped = false) (hgid : a.groupId = some gid) (hne : gid ≠ "")
    (hfind : groups.find? (fun g' => decide ((some gid : Option String) = some g'.id)) = some g)
    (hw : g.weight = some G) (hG : 0 < G)
    (hmem_ne : groupAssignmentsOf gid A ≠ []) :
    calculateEffectiveWeight a A groups =
      (if groupUsesManualWeight (groupAssignmentsOf gid A) then
        (if totalRelativeWeightInGroup (groupAssignmentsOf gid A) = 0 then some 0
         else some (G * (a.relativeWeightInGroup.getD 0 /
            totalRelativeWeightInGroup (groupAssignmentsOf gid A))))
       else some (G / ((groupAssignmentsOf gid A).length : ℚ))) := by
  have hgidg : gid = g.id := by
    have := List.find?_some hfind
    simpa using this
  unfold calculateEffectiveWeight
  rw [hd, hgid]
  simp only [groupIdMissing, hne, decide_eq_true_eq, if_false, Bool.false_eq_true]
  rw [hfind]
  simp only [hw, ← hgidg]
  rw [if_neg (not_le.mpr hG)]
  rw [if_neg (fun h => hmem_ne (List.length_eq_zero.mp h))]

/-- C3: under equal weighting (no member has a positive relative weight), every
non-dropped member of a positively weighted existing group gets effective
weight `G / k`, `k` the number of non-dropped members; the effective weights
over the group's members sum to exactly `G`. -/
theorem equal_weighting_split (A : List Assignment) (groups : List AssignmentGroup)
    (gid : String) (g : AssignmentGroup) (G : ℚ) (hne : gid ≠ "")
    (hfind : groups.find? (fun g' => decide ((some gid : Option String) = some g'.id)) = some g)
    (hw : g.weight = some G) (hG : 0 < G)
    (hman : groupUsesManualWeight (groupAssignmentsOf gid A) = false) :
    (∀ a ∈ groupAssignmentsOf gid A,
      calculateEffectiveWeight a A groups
        = some (G / ((groupAssignmentsOf gid A).length : ℚ))) ∧
    (groupAssignmentsOf gid A ≠ [] →
      ((groupAssignmentsOf gid A).map
        (fun a => (calculateEffectiveWeight a A groups).getD 0)).sum = G) := by
  have hmain : ∀ a ∈ groupAssignmentsOf gid A,
      calculateEffectiveWeight a A groups
        = some (G / ((groupAssignmentsOf gid A).length : ℚ)) := by
    intro a ha
    obtain ⟨haA, hcond⟩ := List.mem_filter.mp ha
    simp only [Bool.and_eq_true, decide_eq_true_eq, Bool.not_eq_true'] at hcond
    obtain ⟨hgida, hda⟩ := hcond
    rw [calc_eff_grouped a A groups gid g G hda hgida hne hfind hw hG
      (List.ne_nil_of_mem ha)]
    simp [hman]
  refine ⟨hmain, fun hnil => ?_⟩
  have hlen : ((groupAssignmentsOf gid A).length : ℚ) ≠ 0 :=
    Nat.cast_ne_zero.mpr (fun h => hnil (List.length_eq_zero.mp h))
  rw [List.map_congr_left (fun a ha => by
    rw [hmain a ha]
    rfl :
    ∀ a ∈ groupAssignmentsOf gid A,
      (calculateEffectiveWeight a A groups).getD 0
        = G / ((groupAssignmentsOf gid A).length : ℚ))]
  rw [List.map_const']
  rw [List.sum_replicate, nsmul_eq_mul, mul_comm, div_mul_cancel₀ G hlen]

/-- Witness for `equal_weighting_split` at a concrete input. -/
theorem equal_weighting_split_witness :
    calculateEffectiveWeight
      ⟨"a1", some 8, some 10, none, false, false, some "g", none⟩
      [⟨"a1", some 8, some 10, none, false, false, some "g", none⟩,
       ⟨"a2", some 6, some 10, none, false, false, some "g", none⟩]
      [⟨"g", some 40⟩] = some 20 := by
  have h := (equal_weighting_split
      [⟨"a1", some 8, some 10, none, false, false, some "g", none⟩,
       ⟨"a2", some 6, some 10, none, false, false, some "g", none⟩]
      [⟨"g", some 40⟩] "g" ⟨"g", some 40⟩ 40
      (by decide) (by simp [List.find?_cons]) rfl (by norm_num) (by decide)).1
      ⟨"a1", some 8, some 10, none, false, false, some "g", none⟩
      (by simp [groupAssignmentsOf, List.filter_cons])
  rw [h]
  norm_num [groupAssignmentsOf, List.filter_cons]

/-- C4: under manual weighting, every non-dropped member of a positively
weighted existing group gets effective weight `G * r / Σ` (`r` its relative
weight or 0, `Σ` the positive total), and the effective weights of the members
with positive relative weight sum to exactly `G`. -/
theorem manual_weighting_split (A : List Assignment) (groups : List AssignmentGroup)
    (gid : String) (g : AssignmentGroup) (G : ℚ) (hne : gid ≠ "")
    (hfind : groups.find? (fun g' => decide ((some gid : Option String) = some g'.id)) = some g)
    (hw : g.weight = some G) (hG : 0 < G)
    (hman : groupUsesManualWeight (groupAssignmentsOf gid A) = true) :
    0 < totalRelativeWeightInGroup (groupAssignmentsOf gid A) ∧
    (∀ a ∈ groupAssignmentsOf gid A,
      calculateEffectiveWeight a A groups
        = some (G * (a.relativeWeightInGroup.getD 0 /
            totalRelativeWeightInGroup (groupAssignmentsOf gid A)))) ∧
    (((groupAssignmentsOf gid A).filter
        (fun a => decide (0 < a.relativeWeightInGroup.getD 0))).map
      (fun a => (calculateEffectiveWeight a A groups).getD 0)).sum = G := by
  have hpos := totalRel_pos _ hman
  have hmain : ∀ a ∈ groupAssignmentsOf gid A,
      calculateEffectiveWeight a A groups
        = some (G * (a.relativeWeightInGroup.getD 0 /
            totalRelativeWeightInGroup (groupAssignmentsOf gid A))) := by
    intro a ha
    obtain ⟨haA, hcond⟩ := List.mem_filter.mp ha
    simp only [Bool.and_eq_true, decide_eq_true_eq, Bool.not_eq_true'] at hcond
    obtain ⟨hgida, hda⟩ := hcond
    rw [calc_eff_grouped a A groups gid g G hda hgida hne hfind hw hG
      (List.ne_nil_of_mem ha)]
    simp [hman, ne_of_gt hpos]
  refine ⟨hpos, hmain, ?_⟩
  rw [List.map_congr_left (fun a ha => by
    rw [hmain a (List.mem_of_mem_filter ha)]
    show G * (a.relativeWeightInGroup.getD 0 /
        totalRelativeWeightInGroup (groupAssignmentsOf gid A))
      = G / totalRelativeWeightInGroup (groupAssignmentsOf gid A) *
        a.relativeWeightInGroup.getD 0
    ring :
    ∀ a ∈ (groupAssignmentsOf gid A).filter
        (fun a => decide (0 < a.relativeWeightInGroup.getD 0)),
      (calculateEffectiveWeight a A groups).getD 0
        = G / totalRelativeWeightInGroup (groupAssignmentsOf gid A) *
            a.relativeWeightInGroup.getD 0)]
  rw [List.sum_map_mul_left, ← totalRel_eq_sum,
    div_mul_cancel₀ G (ne_of_gt hpos)]

/-- Witness for `manual_weighting_split` at a concrete input. -/
theorem manual_weighting_split_witness :
    calculateEffectiveWeight
      ⟨"m1", some 8, some 10, none, false, false, some "g", some 3⟩
      [⟨"m1", some 8, some 10, none, false, false, some "g", some 3⟩,
       ⟨"m2", some 6, some 10, none, false, false, some "g", some 1⟩]
      [⟨"g", some 40⟩] = some 30 := by
  have h := (manual_weighting_split
      [⟨"m1", some 8, some 10, none, false, false, some "g", some 3⟩,
       ⟨"m2", some 6, some 10, none, false, false, some "g", some 1⟩]
      [⟨"g", some 40⟩] "g" ⟨"g", some 40⟩ 40
      (by decide) (by simp [List.find?_cons]) rfl (by norm_num) (by decide)).2.1
      ⟨"m1", some 8, some 10, none, false, false, some "g", some 3⟩
      (by simp [groupAssignmentsOf, List.filter_cons])
  rw [h]
  norm_num [groupAssignmentsOf, totalRelativeWeightInGroup, List.filter_cons]

/-- C7 counterexample: the sibling set is computed by filtering
`allAssignments` only, so an assignment that does not occur in
`allAssignments` is NOT included: with an existing positively weighted group
and an empty assignment list the sibling set is empty, the no-siblings branch
IS taken, and the result is 0 rather than `G / 1 = 10`. -/
theorem missing_assignment_empty_siblings :
    calculateEffectiveWeight ⟨"x", none, none, none, false, false, some "g", none⟩ []
      [⟨"g", some 10⟩] = some 0 ∧
    groupAssignmentsOf "g" ([] : List Assignment) = [] ∧
    some (0 : ℚ) ≠ some ((10 : ℚ) / 1) := by
  refine ⟨?_, rfl, by norm_num⟩
  simp [calculateEffectiveWeight, groupIdMissing, groupAssignmentsOf, List.find?_cons]

/-- C7 amended: for a non-dropped assignment with a `groupId` whose group
exists with positive weight, the sibling set is the set of non-dropped
assignments of `allAssignments` with that `groupId`; it contains the
assignment itself whenever the assignment occurs in `allAssignments`, in which
case it is non-empty (the no-siblings branch is not taken) and under equal
weighting the result is the group weight divided by the sibling count, which
counts the assignment itself. -/
theorem sibling_set_membership (A : List Assignment) (groups : List AssignmentGroup)
    (x : Assignment) (gid : String) (g : AssignmentGroup) (G : ℚ)
    (hd : x.isDropped = false) (hgid : x.groupId = some gid) (hne : gid ≠ "")
    (hfind : groups.find? (fun g' => decide ((some gid : Option String) = some g'.id)) = some g)
    (hw : g.weight = some G) (hG : 0 < G) (hmem : x ∈ A) :
    x ∈ groupAssignmentsOf gid A ∧
    groupAssignmentsOf gid A ≠ [] ∧
    (groupUsesManualWeight (groupAssignmentsOf gid A) = false →
      calculateEffectiveWeight x A groups
        = some (G / ((groupAssignmentsOf gid A).length : ℚ))) := by
  have hx : x ∈ groupAssignmentsOf gid A :=
    List.mem_filter.mpr ⟨hmem, by simp [hgid, hd]⟩
  refine ⟨hx, List.ne_nil_of_mem hx, fun hman => ?_⟩
  rw [calc_eff_grouped x A groups gid g G hd hgid hne hfind hw hG
    (List.ne_nil_of_mem hx)]
  simp [hman]

/-- Witness for `sibling_set_membership` at a concrete input. -/
theorem sibling_set_membership_witness :
    calculateEffectiveWeight ⟨"x", some 7, some 10, none, false, false, some "g", none⟩
      [⟨"x", some 7, some 10, none, false, false, some "g", none⟩]
      [⟨"g", some 10⟩] = some 10 := by
  have h := (sibling_set_membership
      [⟨"x", some 7, some 10, none, false, false, some "g", none⟩] [⟨"g", some 10⟩]
      ⟨"x", some 7, some 10, none, false, false, some "g", none⟩ "g" ⟨"g", some 10⟩ 10
      rfl rfl (by decide) (by simp [List.find?_cons]) rfl (by norm_num)
      (by simp)).2.2 (by simp [groupAssignmentsOf, groupUsesManualWeight, List.filter_cons])
  rw [h]
  norm_num [groupAssignmentsOf, List.filter_cons]


/-- Scanning an ordered insertion for the first cutoff below `p` either finds
a strictly higher earlier match or the inserted element itself. -/
theorem find_orderedInsert (p : ℚ) (c : GradeCutoff) :
    ∀ s : List GradeCutoff, s.Pairwise cutoffGE →
      (List.orderedInsert cutoffGE c s).find?
          (fun x => decide (x.minPercentage.getD 0 ≤ p))
        = if c.minPercentage.getD 0 ≤ p then
            (match s.find? (fun x => decide (x.minPercentage.getD 0 ≤ p)) with
             | some b =>
               if c.minPercentage.getD 0 < b.minPercentage.getD 0
                 then some b else some c
             | none => some c)
          else s.find? (fun x => decide (x.minPercentage.getD 0 ≤ p)) := by
  intro s
  induction s with
  | nil =>
    intro _
    by_cases hqc : c.minPercentage.getD 0 ≤ p <;> simp [hqc]
  | cons b t ih =>
    intro hs
    have hpair := (List.pairwise_cons.mp hs).1
    have htail := (List.pairwise_cons.mp hs).2
    by_cases hcb : cutoffGE c b
    · rw [List.orderedInsert_of_le cutoffGE t hcb]
      by_cases hqc : c.minPercentage.getD 0 ≤ p
      · rw [List.find?_cons_of_pos _ (by simpa using hqc), if_pos hqc]
        cases hf : (b :: t).find? (fun x => decide (x.minPercentage.getD 0 ≤ p)) with
        | none => rfl
        | some b0 =>
          have hb0 : b0 ∈ b :: t := List.mem_of_find?_eq_some hf
          have hkey : b0.minPercentage.getD 0 ≤ b.minPercentage.getD 0 := by
            rcases List.mem_cons.mp hb0 with rfl | hmem
            · exact le_refl _
            · exact hpair b0 hmem
          have hnlt : ¬ c.minPercentage.getD 0 < b0.minPercentage.getD 0 :=
            not_lt.mpr (le_trans hkey hcb)
          simp [hnlt]
      · rw [List.find?_cons_of_neg _ (by simpa using hqc), if_neg hqc]
    · have hkey : c.minPercentage.getD 0 < b.minPercentage.getD 0 :=
        not_le.mp (fun h => hcb h)
      have horder : List.orderedInsert cutoffGE c (b :: t)
          = b :: List.orderedInsert cutoffGE c t := by
        simp [List.orderedInsert, hcb]
      rw [horder]
      by_cases hqb : b.minPercentage.getD 0 ≤ p
      · rw [List.find?_cons_of_pos _ (by simpa using hqb)]
        by_cases hqc : c.minPercentage.getD 0 ≤ p
        · rw [if_pos hqc, List.find?_cons_of_pos _ (by simpa using hqb)]
          simp [hkey]
        · rw [if_neg hqc, List.find?_cons_of_pos _ (by simpa using hqb)]
      · rw [List.find?_cons_of_neg _ (by simpa using hqb), ih htail,
          List.find?_cons_of_neg _ (by simpa using hqb)]

/-- The first match in the stably sorted list is exactly the claim's
first-among-maximal selection over the original order. -/
theorem find_insertionSort_eq_bestCutoff (p : ℚ) :
    ∀ l : List GradeCutoff,
      (List.insertionSort cutoffGE l).find?
          (fun x => decide (x.minPercentage.getD 0 ≤ p))
        = bestCutoff p l
  | [] => rfl
  | c :: t => by
    rw [show List.insertionSort cutoffGE (c :: t)
        = List.orderedInsert cutoffGE c (List.insertionSort cutoffGE t) from rfl]
    rw [find_orderedInsert p c _ (List.sorted_insertionSort cutoffGE t)]
    rw [find_insertionSort_eq_bestCutoff p t]
    rfl

/-- Two strictly descending lists that are permutations of each other are
equal. -/
theorem strict_sorted_perm_eq :
    ∀ l1 l2 : List GradeCutoff, l1.Perm l2 →
      l1.Pairwise (fun a b => b.minPercentage.getD 0 < a.minPercentage.getD 0) →
      l2.Pairwise (fun a b => b.minPercentage.getD 0 < a.minPercentage.getD 0) →
      l1 = l2
  | [], _, hp, _, _ => (hp.symm.eq_nil).symm
  | a :: t1, [], hp, _, _ => absurd hp.eq_nil (List.cons_ne_nil a t1)
  | a :: t1, b :: t2, hp, h1, h2 => by
    rcases eq_or_ne a b with rfl | hne
    · rw [strict_sorted_perm_eq t1 t2 hp.cons_inv h1.of_cons h2.of_cons]
    · exfalso
      have ha : a ∈ b :: t2 := hp.mem_iff.mp (List.mem_cons_self a t1)
      have hb : b ∈ a :: t1 := hp.mem_iff.mpr (List.mem_cons_self b t2)
      have ha2 : a ∈ t2 := by
        rcases List.mem_cons.mp ha with h | h
        · exact (hne h).elim
        · exact h
      have hb1 : b ∈ t1 := by
        rcases List.mem_cons.mp hb with h | h
        · exact (hne h.symm).elim
        · exact h
      have h1' := (List.pairwise_cons.mp h1).1 b hb1
      have h2' := (List.pairwise_cons.mp h2).1 a ha2
      exact absurd h1' (not_lt.mpr (le_of_lt h2'))

/-- Permuting cutoffs with pairwise distinct `minPercentage` does not change
the sorted list. -/
theorem sortedCutoffs_perm_eq (cutoffs cutoffs2 : List GradeCutoff)
    (hperm : cutoffs2.Perm cutoffs)
    (hdist : (cutoffs.filter validCutoff).Pairwise
      (fun a b => a.minPercentage.getD 0 ≠ b.minPercentage.getD 0)) :
    sortedCutoffs cutoffs2 = sortedCutoffs cutoffs := by
  have hsym : Symmetric
      (fun a b : GradeCutoff => a.minPercentage.getD 0 ≠ b.minPercentage.getD 0) :=
    fun _ _ h => Ne.symm h
  have hfp : (cutoffs2.filter validCutoff).Perm (cutoffs.filter validCutoff) :=
    hperm.filter _
  have hs1 : (sortedCutoffs cutoffs2).Perm (cutoffs2.filter validCutoff) :=
    List.perm_insertionSort cutoffGE _
  have hs2 : (sortedCutoffs cutoffs).Perm (cutoffs.filter validCutoff) :=
    List.perm_insertionSort cutoffGE _
  have hp12 : (sortedCutoffs cutoffs2).Perm (sortedCutoffs cutoffs) :=
    hs1.trans (hfp.trans hs2.symm)
  have hdist2 : (sortedCutoffs cutoffs).Pairwise
      (fun a b => a.minPercentage.getD 0 ≠ b.minPercentage.getD 0) :=
    ((hs2.pairwise_iff (fun {_ _} hh => hsym hh)).mpr) hdist
  have hdist1 : (sortedCutoffs cutoffs2).Pairwise
      (fun a b => a.minPercentage.getD 0 ≠ b.minPercentage.getD 0) :=
    ((hp12.pairwise_iff (fun {_ _} hh => hsym hh)).mpr) hdist2
  have hsort1 : (sortedCutoffs cutoffs2).Pairwise cutoffGE :=
    List.sorted_insertionSort cutoffGE _
  have hsort2 : (sortedCutoffs cutoffs).Pairwise cutoffGE :=
    List.sorted_insertionSort cutoffGE _
  exact strict_sorted_perm_eq _ _ hp12
    ((hsort1.and hdist1).imp (fun h => lt_of_le_of_ne h.1 (Ne.symm h.2)))
    ((hsort2.and hdist2).imp (fun h => lt_of_le_of_ne h.1 (Ne.symm h.2)))

/-- C6 counterexample: with a single valid cutoff of grade `""` (a string) at
`minPercentage = -5` and percentage `-10`, the fallback applies, but the `||`
in `...?.grade || "F"` makes the code return the literal `"F"`, not the grade
`""` of the present cutoff with `minPercentage ≤ 0`. -/
theorem letter_grade_fallback_empty_grade :
    getLetterGrade (some (-10)) [⟨"c1", some "", some (-5)⟩] = "F" ∧
    ("F" : String) ≠ "" := by
  constructor
  · norm_num [getLetterGrade, letterFromSorted, sortedCutoffs, validCutoff,
      List.insertionSort, List.orderedInsert, cutoffGE, List.filter_cons,
      List.find?_cons]
  · decide

/-- C6 amended: `getLetterGrade` returns `"-"` on `null`; on a percentage it
returns the grade of the first cutoff met after the stable descending sort
(equivalently: the valid cutoff with the largest `minPercentage ≤ p`, ties by
original order); if none is met, it falls back to the first sorted cutoff with
`minPercentage ≤ 0` — except that an empty-string grade is replaced by the
literal `"F"` — and to `"F"` when there is none; the result does not depend on
the input order when the valid cutoffs' `minPercentage` are pairwise distinct. -/
theorem letter_grade_characterization :
    (∀ cutoffs, getLetterGrade none cutoffs = "-") ∧
    (∀ (p : ℚ) (cutoffs : List GradeCutoff) (c : GradeCutoff),
      bestCutoff p (cutoffs.filter validCutoff) = some c →
        getLetterGrade (some p) cutoffs = c.grade.getD "") ∧
    (∀ (p : ℚ) (cutoffs : List GradeCutoff),
      bestCutoff p (cutoffs.filter validCutoff) = none →
        getLetterGrade (some p) cutoffs =
          (match bestCutoff 0 (cutoffs.filter validCutoff) with
           | some c => if c.grade.getD "" = "" then "F" else c.grade.getD ""
           | none => "F")) ∧
    (∀ (p : ℚ) (cutoffs cutoffs2 : List GradeCutoff),
      cutoffs2.Perm cutoffs →
      (cutoffs.filter validCutoff).Pairwise
        (fun a b => a.minPercentage.getD 0 ≠ b.minPercentage.getD 0) →
      getLetterGrade (some p) cutoffs2 = getLetterGrade (some p) cutoffs) := by
  refine ⟨fun _ => rfl, ?_, ?_, ?_⟩
  · intro p cutoffs c hc
    show letterFromSorted p (sortedCutoffs cutoffs) = _
    unfold letterFromSorted sortedCutoffs
    rw [find_insertionSort_eq_bestCutoff, hc]
  · intro p cutoffs h
    show letterFromSorted p (sortedCutoffs cutoffs) = _
    unfold letterFromSorted sortedCutoffs
    rw [find_insertionSort_eq_bestCutoff, h, find_insertionSort_eq_bestCutoff]
  · intro p cutoffs cutoffs2 hperm hdist
    show letterFromSorted p (sortedCutoffs cutoffs2)
        = letterFromSorted p (sortedCutoffs cutoffs)
    rw [sortedCutoffs_perm_eq cutoffs cutoffs2 hperm hdist]

/-- Witness for `letter_grade_characterization` at a concrete input. -/
theorem letter_grade_characterization_witness :
    getLetterGrade (some 92)
      [⟨"cB", some "B", some 80⟩, ⟨"cA", some "A", some 90⟩] = "A" := by
  have h := letter_grade_characterization.2.1 92
    [⟨"cB", some "B", some 80⟩, ⟨"cA", some "A", some 90⟩]
    ⟨"cA", some "A", some 90⟩
    (by norm_num [bestCutoff, validCutoff, List.filter_cons])
  rw [h]
  rfl

/-- C9: for a nonnegative percentage — in particular any non-`null` result of
`calculateOverallGrade` — the answer never comes from the fallback search:
either the main scan finds a met cutoff and returns its grade, or no valid
cutoff has `minPercentage ≤ 0` and the literal `"F"` is returned. -/
theorem nonneg_percentage_no_fallback (p : ℚ) (cutoffs : List GradeCutoff)
    (hp : 0 ≤ p) :
    ((∃ c, (sortedCutoffs cutoffs).find?
          (fun x => decide (x.minPercentage.getD 0 ≤ p)) = some c ∧
        getLetterGrade (some p) cutoffs = c.grade.getD "") ∨
     ((sortedCutoffs cutoffs).find?
          (fun x => decide (x.minPercentage.getD 0 ≤ 0)) = none ∧
        getLetterGrade (some p) cutoffs = "F")) ∧
    (∀ (A : List Assignment) (G : List AssignmentGroup) (q : ℚ),
      calculateOverallGrade A G = some q → 0 ≤ q) := by
  refine ⟨?_, fun A G q h => overall_nonneg A G q h⟩
  cases hf : (sortedCutoffs cutoffs).find?
      (fun x => decide (x.minPercentage.getD 0 ≤ p)) with
  | some c =>
    left
    refine ⟨c, rfl, ?_⟩
    show letterFromSorted p (sortedCutoffs cutoffs) = _
    unfold letterFromSorted
    rw [hf]
  | none =>
    right
    have h0 : (sortedCutoffs cutoffs).find?
        (fun x => decide (x.minPercentage.getD 0 ≤ 0)) = none := by
      rw [List.find?_eq_none] at hf ⊢
      intro x hx hx0
      refine hf x hx ?_
      simp only [decide_eq_true_eq] at hx0 ⊢
      exact le_trans hx0 hp
    refine ⟨h0, ?_⟩
    show letterFromSorted p (sortedCutoffs cutoffs) = _
    unfold letterFromSorted
    rw [hf, h0]

/-- Witness for `nonneg_percentage_no_fallback` at a concrete input. -/
theorem nonneg_percentage_no_fallback_witness :
    getLetterGrade (some 50) [⟨"c1", some "A", some 90⟩] = "F" := by
  have h := (nonneg_percentage_no_fallback 50 [⟨"c1", some "A", some 90⟩]
    (by norm_num)).1
  rcases h with ⟨c, hc, _⟩ | ⟨_, h⟩
  · have hnone : (sortedCutoffs [⟨"c1", some "A", some 90⟩]).find?
        (fun x => decide (x.minPercentage.getD 0 ≤ 50)) = none := by
      norm_num [sortedCutoffs, validCutoff, List.insertionSort, List.orderedInsert,
        List.find?_cons, List.filter_cons]
    rw [hnone] at hc
    cases hc
  · exact h






/-- The legacy ungrouped loop body as a pairwise accumulation. -/
theorem legacy_base_step_eq :
    (fun (acc : ℚ × ℚ) (a : Assignment) =>
      match safePercentage a.score a.totalScore with
      | none => acc
      | some percentage =>
        let weight : ℚ := match a.weight with
          | some w => if 0 < w then w else 0
          | none => 0
        if 0 < weight then
          (acc.1 + percentage * weight,
           if a.isExtraCredit then acc.2 else acc.2 + weight)
        else acc)
    = fun acc a => (acc.1 + (legacyUngroupedDelta a).1, acc.2 + (legacyUngroupedDelta a).2) := by
  funext acc a
  unfold legacyUngroupedDelta
  cases hsp : safePercentage a.score a.totalScore with
  | none => simp
  | some pct =>
    dsimp only
    cases hwt : a.weight with
    | none => simp
    | some w =>
      by_cases hw : 0 < w
      · by_cases hec : a.isExtraCredit <;> simp [hw, hec]
      · simp [hw]

/-- C10: on inputs where no assignment has a `groupId`, the current
per-assignment aggregator and the legacy aggregator agree. -/
theorem legacy_equivalence_ungrouped (A : List Assignment)
    (groups : List AssignmentGroup) (h : ∀ a ∈ A, a.groupId = none) :
    calculateOverallGrade A groups = calculateOverallGradeLegacy A groups := by
  have hnd_mem : ∀ a ∈ A.filter (fun a => !a.isDropped), a.groupId = none :=
    fun a ha => h a (List.mem_of_mem_filter ha)
  have hug : (A.filter (fun a => !a.isDropped)).filter
      (fun a => groupIdMissing a.groupId) = A.filter (fun a => !a.isDropped) :=
    List.filter_eq_self.mpr (fun a ha => by rw [hnd_mem a ha]; rfl)
  have hstep : ∀ (acc : ℚ × ℚ) (g : AssignmentGroup),
      legacyGroupStep (A.filter (fun a => !a.isDropped)) acc g = acc := by
    intro acc g
    unfold legacyGroupStep
    have hnil : (A.filter (fun a => !a.isDropped)).filter
        (fun a => decide (a.groupId = some g.id)) = [] :=
      List.filter_eq_nil_iff.mpr (fun a ha => by simp [hnd_mem a ha])
    rw [hnil]
    simp
  have hfold : ∀ (gs : List AssignmentGroup) (acc : ℚ × ℚ),
      gs.foldl (legacyGroupStep (A.filter (fun a => !a.isDropped))) acc = acc := by
    intro gs
    induction gs with
    | nil => intro acc; rfl
    | cons g t ih =>
      intro acc
      rw [List.foldl_cons, hstep acc g, ih]
  have hagree : ∀ a ∈ A.filter (fun a => !a.isDropped),
      contributionPair A groups a = legacyUngroupedDelta a := by
    intro a ha
    have hga := hnd_mem a ha
    have hda : a.isDropped = false := by
      have := (List.mem_filter.mp ha).2
      simpa using this
    have heff : calculateEffectiveWeight a A groups = a.weight := by
      unfold calculateEffectiveWeight
      rw [hda, hga]
      rfl
    unfold contributionPair calculateAssignmentContribution legacyUngroupedDelta
    rw [heff]
    cases hsp : safePercentage a.score a.totalScore with
    | none => rfl
    | some pct =>
      dsimp only
      cases hwt : a.weight with
      | none => simp [isValidWeight]
      | some w =>
        by_cases hw : 0 < w
        · simp [isValidWeight, hw]
        · simp [isValidWeight, hw]
  rw [calculateOverallGrade_eq]
  unfold calculateOverallGradeLegacy
  dsimp only
  rw [hug, legacy_base_step_eq, foldl_pair_sum legacyUngroupedDelta, hfold]
  simp only [zero_add]
  rw [List.map_congr_left
      (fun a ha => congrArg Prod.fst (hagree a ha) :
        ∀ a ∈ A.filter (fun a => !a.isDropped),
          (contributionPair A groups a).1 = (legacyUngroupedDelta a).1),
    List.map_congr_left
      (fun a ha => congrArg Prod.snd (hagree a ha) :
        ∀ a ∈ A.filter (fun a => !a.isDropped),
          (contributionPair A groups a).2 = (legacyUngroupedDelta a).2)]

/-- Witness for `legacy_equivalence_ungrouped` at a concrete input. -/
theorem legacy_equivalence_ungrouped_witness :
    calculateOverallGrade
      [⟨"a", some 8, some 10, some 50, false, false, none, none⟩,
       ⟨"x", some 10, some 10, some 10, false, true, none, none⟩]
      [⟨"g", some 100⟩]
    = calculateOverallGradeLegacy
      [⟨"a", some 8, some 10, some 50, false, false, none, none⟩,
       ⟨"x", some 10, some 10, some 10, false, true, none, none⟩]
      [⟨"g", some 100⟩] :=
  legacy_equivalence_ungrouped _ _ (by simp)
